import Mathlib

/-!
Verification of the matchmaking / game-session / rating core of the
`mmo-engine` repository, as a shallow embedding in Lean.

The embedding follows the JavaScript sources:
  * `src/api/services/GameService.js` — `GameService` (game lifecycle) and
    `MatchmakingService` (queues, compatibility, matchmaking ticks);
  * `src/api/services/PlayerService.js` — player records, Elo update,
    leaderboard reads;
  * `src/unnamed/part_000` — the standalone `EloCalculator`.

Machine conventions: timestamps (`Date.now()`) and ratings stored in queue
entries and match records are integers and are modelled as `Int`; the Elo
arithmetic in `PlayerService` / `EloCalculator` happens on JS numbers before
rounding and is modelled on `ℝ`, with `Math.round x` as `⌊x + 1/2⌋` and
`Math.pow 10 x` as `Real.rpow`.  Redis sorted sets are modelled as lists of
(score, member) pairs or member lists with set semantics where relevant.
Effectful operations (Redis writes, event emission, RabbitMQ publishes) are
made explicit: functions return the new state together with the list of
emitted events / issued commands.
-/

namespace MmoEngine

/-- JS truthiness of an optional string field: `undefined` and `""` are
falsy, every other string is truthy. -/
def jsTruthyStr : Option String → Bool
  | none => false
  | some s => s ≠ ""

/-- Recognized preference keys of a queue entry (`region`, `timeControl`);
other keys are never read by the core.  A missing key is `none`. -/
structure Prefs where
  region : Option String := none
  timeControl : Option String := none
deriving DecidableEq

/-- A matchmaking queue entry, as built by `MatchmakingService.addToQueue`
(`playerData` in the source): id, username, cached rating, preferences,
socket id, `joinedAt` timestamp and the `searchExpansion` counter. -/
structure QEntry where
  id : String
  username : String
  rating : Int
  preferences : Option Prefs := some {}
  socketId : String
  joinedAt : Int
  searchExpansion : Nat := 0
deriving DecidableEq

/-- `p.preferences || {}` from the source: an absent preferences map is
replaced by the empty one. -/
def prefsOf (e : QEntry) : Prefs :=
  e.preferences.getD {}

/-- `MatchmakingService.checkFPSCompatibility`: compatible unless both sides
carry a (truthy) `region` and the regions differ. -/
def checkFPSCompatibility (player1 player2 : QEntry) : Bool :=
  let p1Prefs := prefsOf player1
  let p2Prefs := prefsOf player2
  !(jsTruthyStr p1Prefs.region && jsTruthyStr p2Prefs.region &&
    p1Prefs.region ≠ p2Prefs.region)

/-- `MatchmakingService.checkChessCompatibility`: compatible unless both
sides carry a (truthy) `timeControl` and they differ. -/
def checkChessCompatibility (player1 player2 : QEntry) : Bool :=
  let p1Prefs := prefsOf player1
  let p2Prefs := prefsOf player2
  !(jsTruthyStr p1Prefs.timeControl && jsTruthyStr p2Prefs.timeControl &&
    p1Prefs.timeControl ≠ p2Prefs.timeControl)

/-- `MatchmakingService.arePlayersCompatible`, with `Date.now()` passed
explicitly as `now`.  `Math.floor (waitTime / 10000)` is floor division,
i.e. `Int.fdiv`. -/
def arePlayersCompatible (player1 player2 : QEntry) (gameMode : String)
    (now : Int) : Bool :=
  let ratingDiff := |player1.rating - player2.rating|
  let waitTime := max (now - player1.joinedAt) (now - player2.joinedAt)
  let maxRatingDiff := 100 + (Int.fdiv waitTime 10000) * 30
  if ratingDiff > maxRatingDiff then false
  else if gameMode = "fps" then checkFPSCompatibility player1 player2
  else if gameMode = "chess" then checkChessCompatibility player1 player2
  else true

/-- The compatibility predicate exactly as the specification words it: the
core rating gate with wait-time relaxation, an fps region gate, a chess
time-control gate, and no other gate. -/
def compatSpec (a b : QEntry) (mode : String) (now : Int) : Prop :=
  |a.rating - b.rating| ≤
      100 + 30 * Int.fdiv (max (now - a.joinedAt) (now - b.joinedAt)) 10000 ∧
  (mode = "fps" →
    (¬ jsTruthyStr (prefsOf a).region = true ∨
     ¬ jsTruthyStr (prefsOf b).region = true ∨
     (prefsOf a).region = (prefsOf b).region)) ∧
  (mode = "chess" →
    (¬ jsTruthyStr (prefsOf a).timeControl = true ∨
     ¬ jsTruthyStr (prefsOf b).timeControl = true ∨
     (prefsOf a).timeControl = (prefsOf b).timeControl))

/-! ### Player records (`PlayerService`) -/

/-- The per-mode ratings object created by `PlayerService.createPlayer`:
the source always builds the literal `{fps, chess, moba, rts}`. -/
structure Ratings where
  fps : Int
  chess : Int
  moba : Int
  rts : Int
deriving DecidableEq

/-- Dynamic lookup `ratings[gameMode]`: the four known keys yield their
field, any other key is `undefined` (`none`). -/
def ratingFor (r : Ratings) (gameMode : String) : Option Int :=
  if gameMode = "fps" then some r.fps
  else if gameMode = "chess" then some r.chess
  else if gameMode = "moba" then some r.moba
  else if gameMode = "rts" then some r.rts
  else none

/-- The `stats` counters of a player record. -/
structure Stats where
  gamesPlayed : Nat
  wins : Nat
  losses : Nat
  draws : Nat
deriving DecidableEq

/-- A persisted player record (`player:<id>` JSON). -/
structure Player where
  id : String
  username : String
  ratings : Ratings
  stats : Stats
  createdAt : Int
  lastActive : Int
deriving DecidableEq

/-- The outcome of `PlayerService.createPlayer`: the player record written
under `player:<id>` together with the `zAdd` issued on
`leaderboard:global` (score `ratings[gameMode]`, member the player id).
The fresh UUID and `Date.now()` are explicit arguments.  The source
performs no validation of `username` whatsoever and has no failure path
other than backend I/O. -/
structure CreatedPlayer where
  player : Player
  lbKey : String
  lbScore : Option Int
  lbMember : String
deriving DecidableEq

/-- `PlayerService.createPlayer(username, gameMode = 'fps')`. -/
def createPlayer (username : String) (gameMode : String) (playerId : String)
    (now : Int) : CreatedPlayer :=
  let player : Player :=
    { id := playerId
      username := username
      ratings := { fps := 1000, chess := 1000, moba := 1000, rts := 1000 }
      stats := { gamesPlayed := 0, wins := 0, losses := 0, draws := 0 }
      createdAt := now
      lastActive := now }
  { player := player
    lbKey := "leaderboard:global"
    lbScore := ratingFor player.ratings gameMode
    lbMember := playerId }

/-! ### Elo arithmetic (`EloCalculator` in `src/unnamed/part_000` and the
inline copy in `PlayerService.updatePlayerRating`).

JS numbers are modelled as `ℝ`; `Math.pow 10 x` is `Real.rpow`, so these
definitions are noncomputable, and `Math.round x` is `⌊x + 1/2⌋`. -/

/-- `Math.round x = ⌊x + 1/2⌋` (JS rounds half-up, also for negatives). -/
noncomputable def jsRound (x : ℝ) : Int :=
  ⌊x + 1 / 2⌋

/-- `calculateExpectedScore(playerRating, opponentRating)` — identical in
`EloCalculator` and `PlayerService`. -/
noncomputable def calculateExpectedScore (playerRating opponentRating : ℝ) : ℝ :=
  1 / (1 + (10 : ℝ) ^ ((opponentRating - playerRating) / 400))

/-- `EloCalculator.getActualScore`.  The JS switch yields `undefined` on an
unrecognized result; that case is unreachable behind `validateInputs`, and
is mapped to `0` here. -/
noncomputable def getActualScore (result : String) : ℝ :=
  if result = "win" then 1
  else if result = "loss" then 0
  else if result = "draw" then 1 / 2
  else 0

/-- `EloCalculator.calculateNewRating(playerRating, opponentRating, result,
kFactor = 32)`.  A non-number rating (`none`) or an unrecognized result
string is rejected by `validateInputs` (numbers are checked first); the
successful case computes `Math.round (Math.max 100 (player + k·(actual −
expected)))`. -/
noncomputable def calculateNewRating (playerRating opponentRating : Option ℝ)
    (result : String) (kFactor : ℝ := 32) : Except String Int :=
  match playerRating, opponentRating with
  | some p, some o =>
    if result = "win" ∨ result = "loss" ∨ result = "draw" then
      .ok (jsRound (max 100
        (p + kFactor * (getActualScore result - calculateExpectedScore p o))))
    else .error "Result must be win, loss, or draw"
  | _, _ => .error "Ratings must be numbers"

/-- The new stored rating computed by `PlayerService.updatePlayerRating`
for a player whose current rating in the mode is `currentRating`:
`Math.max 100 (Math.round (current + 32·(actual − expected)))` with
`eloK = 32`. -/
noncomputable def updatedRating (currentRating opponentRating : ℝ)
    (result : String) : Int :=
  max 100 (jsRound (currentRating +
    32 * (getActualScore result - calculateExpectedScore currentRating opponentRating)))

/-- The rating change applied by `PlayerService.updatePlayerRating` before
rounding and before the floor clamp: `eloK · (actual − expected)`. -/
noncomputable def ratingDelta (currentRating opponentRating : ℝ)
    (result : String) : ℝ :=
  32 * (getActualScore result - calculateExpectedScore currentRating opponentRating)

/-! ### Queue writes (`MatchmakingService.addToQueue`)

The Redis sorted set `queue:<mode>` is a list of (score, member) pairs
with set semantics on the member: `zAdd` of an existing member updates its
score in place, `zAdd` of a new member inserts it.  A member is the JSON
serialization of the `playerData` object, modelled by the `QEntry` value
itself (the serialization is injective on these records). -/

/-- Redis `zAdd key [{score, value}]` on `queue:<mode>`. -/
def zAddEntry (queue : List (Int × QEntry)) (score : Int) (entry : QEntry) :
    List (Int × QEntry) :=
  if queue.any (fun p => p.2 = entry) then
    queue.map (fun p => if p.2 = entry then (score, entry) else p)
  else queue ++ [(score, entry)]

/-- JS `x || d` on an optional number: `undefined` and `0` are falsy. -/
def jsOrInt (x : Option Int) (d : Int) : Int :=
  match x with
  | none => d
  | some v => if v = 0 then d else v

/-- `MatchmakingService.addToQueue(playerId, gameMode, preferences = {},
socketId)`.  `player` is the result of the `getPlayer(playerId)` lookup;
a missing player throws `Player not found`.  Otherwise the built
`playerData` entry is `zAdd`ed with score `player.ratings[gameMode] || 1000`
and `joinedAt = Date.now()`, `searchExpansion = 0`. -/
def addToQueue (player : Option Player) (queue : List (Int × QEntry))
    (gameMode : String) (preferences : Prefs) (socketId : String)
    (now : Int) : Except String (List (Int × QEntry)) :=
  match player with
  | none => .error "Player not found"
  | some player =>
    let playerData : QEntry :=
      { id := player.id
        username := player.username
        rating := jsOrInt (ratingFor player.ratings gameMode) 1000
        preferences := some preferences
        socketId := socketId
        joinedAt := now
        searchExpansion := 0 }
    .ok (zAddEntry queue playerData.rating playerData)

/-- Number of members of `queue:<mode>` whose embedded `id` is
`playerId`. -/
def queueCountFor (queue : List (Int × QEntry)) (playerId : String) : Nat :=
  (queue.filter (fun p => p.2.id = playerId)).length

/-! ### Game lifecycle (`GameService`) -/

/-- A participant snapshot stored in a match record (`createGame` copies
id, username, rating, socketId). -/
structure GPlayer where
  id : String
  username : String
  rating : Int
  socketId : String
deriving DecidableEq

/-- The `result` object written by `endGame`. -/
structure GameResult where
  winnerId : Option String
  reason : String
deriving DecidableEq

/-- A match record (`game:<id>` JSON / `activeGames` entry). -/
structure Game where
  id : String
  players : List GPlayer
  gameMode : String
  status : String
  createdAt : Int
  startedAt : Option Int := none
  endedAt : Option Int := none
  result : Option GameResult := none
deriving DecidableEq

/-- `GameService.startGame(gameId)`, with the `getGame` lookup made
explicit and `Date.now()` passed as `now`.  Returns the stored record and
whether a `game_started` update was emitted.  The source checks only that
the game exists: it unconditionally writes `status = 'active'` and
`startedAt = now`, whatever the current status. -/
def startGame (game : Option Game) (now : Int) : Option Game × Bool :=
  match game with
  | none => (none, false)
  | some g => (some { g with status := "active", startedAt := some now }, true)

/-- A rating update requested from the Player Store:
`updatePlayerRating(playerId, gameMode, opponentRating, result)`. -/
structure RatingCmd where
  playerId : String
  gameMode : String
  opponentRating : Int
  result : String
deriving DecidableEq

/-- The sequence of `updatePlayerRating` calls issued by
`GameService.endGame`: for a two-player chess match the winner gets `win`
and the loser `loss` when `winnerId` matches a participant, and both get
`draw` otherwise; every other mode or player count settles without rating
updates. -/
def endGameCmds (game : Game) (winnerId : Option String) : List RatingCmd :=
  if game.gameMode = "chess" ∧ game.players.length = 2 then
    match game.players with
    | player1 :: player2 :: _ =>
      if winnerId = some player1.id then
        [⟨player1.id, game.gameMode, player2.rating, "win"⟩,
         ⟨player2.id, game.gameMode, player1.rating, "loss"⟩]
      else if winnerId = some player2.id then
        [⟨player2.id, game.gameMode, player1.rating, "win"⟩,
         ⟨player1.id, game.gameMode, player2.rating, "loss"⟩]
      else
        [⟨player1.id, game.gameMode, player2.rating, "draw"⟩,
         ⟨player2.id, game.gameMode, player1.rating, "draw"⟩]
    | _ => []
  else []

/-- `GameService.endGame(gameId, winnerId = null, reason = 'completed')`,
with the `getGame` lookup explicit and `Date.now()` as `now`.  Returns the
stored record and the rating updates issued.  The source checks only that
the game exists — there is no guard on the current status — then writes
`status = 'finished'`, `endedAt = now`, `result = {winnerId, reason}` and,
for two-player chess, issues the pairwise rating updates. -/
def endGame (game : Option Game) (winnerId : Option String) (reason : String)
    (now : Int) : Option Game × List RatingCmd :=
  match game with
  | none => (none, [])
  | some g =>
    (some { g with
        status := "finished"
        endedAt := some now
        result := some ⟨winnerId, reason⟩ },
     endGameCmds g winnerId)

/-! ### Leaderboard reads (`PlayerService.getLeaderboard`) -/

/-- One row of the returned leaderboard. -/
structure LBRow where
  rank : Nat
  playerId : String
  username : String
  rating : Int
  gamesPlayed : Nat
deriving DecidableEq

/-- Descending-score order on (member, score) pairs of the
`leaderboard:<mode>` sorted set. -/
def scoreGe (a b : String × Int) : Prop := b.2 ≤ a.2

instance : DecidableRel scoreGe :=
  fun a b => inferInstanceAs (Decidable (b.2 ≤ a.2))

instance : IsTotal (String × Int) scoreGe :=
  ⟨fun a b => le_total b.2 a.2⟩

instance : IsTrans (String × Int) scoreGe :=
  ⟨fun _ _ _ h1 h2 => le_trans h2 h1⟩

/-- Redis `zRevRangeWithScores key 0 (limit − 1)`: the sorted set read
descending by score.  For `limit = 0` the stop index is `-1`, which Redis
resolves to the last element, so the whole set is returned. -/
def zRevRangeWithScores (lb : List (String × Int)) (limit : Nat) :
    List (String × Int) :=
  let sorted := List.insertionSort scoreGe lb
  if limit = 0 then sorted else sorted.take limit

/-- The row-building loop of `getLeaderboard`: `i` is the loop index over
`playersWithScores`, `rank = i + 1`, and an id whose player record is
absent contributes no row while the index still advances. -/
def lbRows (entries : List (String × Int)) (getPlayer : String → Option Player)
    (i : Nat) : List LBRow :=
  match entries with
  | [] => []
  | (playerId, rating) :: rest =>
    match getPlayer playerId with
    | some player =>
      ⟨i + 1, playerId, player.username, rating, player.stats.gamesPlayed⟩ ::
        lbRows rest getPlayer (i + 1)
    | none => lbRows rest getPlayer (i + 1)

/-- `PlayerService.getLeaderboard(gameMode = 'global', limit = 100)` over
the sorted-set state `lb` of `leaderboard:<gameMode>`, with the
`getPlayer` lookups explicit. -/
def getLeaderboard (lb : List (String × Int))
    (getPlayer : String → Option Player) (limit : Nat) : List LBRow :=
  lbRows (zRevRangeWithScores lb limit) getPlayer 0

/-! ### Matchmaking ticks (`MatchmakingService.processMatchmaking`)

The tick reads all members of `queue:<mode>` (`zRange 0 -1`), groups them
with `findMatches`, and for each group first runs `createMatch` (persist
the game, emit `match_found`, publish to the bus) and then `zRem`s the
group members one at a time.  Any of these awaited operations can throw;
the surrounding `try/catch` then abandons the rest of the tick.  This is
modelled by numbering the effectful operations of the loop —
`createMatch` for each group, then one `zRem` per member — and letting
`failAt` name the operation that throws.  A `createMatch` failure is
modelled as failing before the `match_found` emission (a failure of the
post-emission bus publish is observably the failure of the first `zRem`
of the group: the group is emitted and no member is removed). -/

/-- `MatchmakingService.getPlayersPerMatch`. -/
def getPlayersPerMatch (gameMode : String) : Nat :=
  if gameMode = "fps" then 10
  else if gameMode = "chess" then 2
  else if gameMode = "moba" then 10
  else if gameMode = "rts" then 2
  else 2

/-- Ascending `joinedAt` order (`players.sort((a, b) => a.joinedAt −
b.joinedAt)`). -/
def joinedLe (a b : QEntry) : Prop := a.joinedAt ≤ b.joinedAt

instance : DecidableRel joinedLe :=
  fun a b => inferInstanceAs (Decidable (a.joinedAt ≤ b.joinedAt))

/-- The inner loop of `findMatches`: scan the candidates after the seed in
order and append each unused candidate compatible with the seed while the
tentative group is not full.  Returns the grown group and the updated
used-id set. -/
def buildGroup (seed : QEntry) (rest : List QEntry) (used : List String)
    (tentative : List QEntry) (target : Nat) (gameMode : String)
    (now : Int) : List QEntry × List String :=
  match rest with
  | [] => (tentative, used)
  | q :: rs =>
    if target ≤ tentative.length then (tentative, used)
    else if used.contains q.id then
      buildGroup seed rs used tentative target gameMode now
    else if arePlayersCompatible seed q gameMode now then
      buildGroup seed rs (q.id :: used) (tentative ++ [q]) target gameMode now
    else
      buildGroup seed rs used tentative target gameMode now

/-- The outer loop of `findMatches`: each unused candidate seeds a
tentative group; a group reaching the target size is committed, otherwise
all its members are released from the used set. -/
def scanPlayers (players : List QEntry) (used : List String) (target : Nat)
    (gameMode : String) (now : Int) : List (List QEntry) × List String :=
  match players with
  | [] => ([], used)
  | p :: rest =>
    if used.contains p.id then scanPlayers rest used target gameMode now
    else
      let grown := buildGroup p rest (p.id :: used) [p] target gameMode now
      if grown.1.length = target then
        let next := scanPlayers rest grown.2 target gameMode now
        (grown.1 :: next.1, next.2)
      else
        scanPlayers rest
          (grown.2.filter (fun id => !(grown.1.any (fun q => q.id = id))))
          target gameMode now

/-- `MatchmakingService.findMatches(players, gameMode)`: sort by
`joinedAt` ascending (JS `Array.sort` is stable) and greedily group. -/
def findMatches (players : List QEntry) (gameMode : String) (now : Int) :
    List (List QEntry) :=
  (scanPlayers (List.insertionSort joinedLe players) []
    (getPlayersPerMatch gameMode) gameMode now).1

/-- Observable outcome of one tick: the final queue contents, the groups
for which `match_found` was emitted, and whether the tick threw (the tick
body is wrapped in `try/catch`, so a throw only abandons the rest of the
tick). -/
structure TickResult where
  queue : List QEntry
  emitted : List (List QEntry)
  errored : Bool
deriving DecidableEq

/-- The per-group removal loop: `zRem` each member in order, erasing it
from the queue; operation counter `ctr` advances per `zRem`, and the loop
aborts if `failAt` names the current operation. -/
def removeGroup (group : List QEntry) (queue : List QEntry) (ctr : Nat)
    (failAt : Option Nat) : List QEntry × Nat × Bool :=
  match group with
  | [] => (queue, ctr, false)
  | p :: ps =>
    if failAt = some ctr then (queue, ctr, true)
    else removeGroup ps (queue.erase p) (ctr + 1) failAt

/-- The per-match loop of `processMatchmaking`: `createMatch` (counted as
one operation, emitting `match_found` on success), then the member
removals. -/
def runGroups (groups : List (List QEntry)) (queue : List QEntry)
    (emitted : List (List QEntry)) (ctr : Nat) (failAt : Option Nat) :
    TickResult :=
  match groups with
  | [] => ⟨queue, emitted, false⟩
  | g :: gs =>
    if failAt = some ctr then ⟨queue, emitted, true⟩
    else
      let removed := removeGroup g queue (ctr + 1) failAt
      if removed.2.2 then ⟨removed.1, emitted ++ [g], true⟩
      else runGroups gs removed.1 (emitted ++ [g]) removed.2.1 failAt

/-- `MatchmakingService.processMatchmaking(gameMode)` on the queue state
`queue` (the members of `queue:<mode>` in store order), with failure
schedule `failAt`. -/
def processMatchmaking (queue : List QEntry) (gameMode : String) (now : Int)
    (failAt : Option Nat) : TickResult :=
  if queue.length < 2 then ⟨queue, [], false⟩
  else runGroups (findMatches queue gameMode now) queue [] 0 failAt

/-! ## Theorems -/

lemma checkFPSCompatibility_symm (a b : QEntry) :
    checkFPSCompatibility a b = checkFPSCompatibility b a := by
  simp only [checkFPSCompatibility]
  cases h1 : jsTruthyStr (prefsOf a).region <;>
    cases h2 : jsTruthyStr (prefsOf b).region <;>
      simp [ne_comm]

lemma checkChessCompatibility_symm (a b : QEntry) :
    checkChessCompatibility a b = checkChessCompatibility b a := by
  simp only [checkChessCompatibility]
  cases h1 : jsTruthyStr (prefsOf a).timeControl <;>
    cases h2 : jsTruthyStr (prefsOf b).timeControl <;>
      simp [ne_comm]

/-- **C5.** `arePlayersCompatible a b mode now` holds iff
`|a.rating − b.rating| ≤ 100 + 30·⌊maxWait/10000⌋` with
`maxWait = max (now − a.joinedAt) (now − b.joinedAt)`, and additionally for
`fps` both entries either lack a region preference or share it, for `chess`
both entries either lack a `timeControl` preference or share it, and no
other mode imposes an extra gate; moreover the predicate is symmetric in
its two entries. -/
theorem arePlayersCompatible_correct (a b : QEntry) (mode : String)
    (now : Int) :
    (arePlayersCompatible a b mode now = true ↔ compatSpec a b mode now) ∧
    arePlayersCompatible a b mode now = arePlayersCompatible b a mode now := by
  constructor
  · simp only [arePlayersCompatible, compatSpec]
    by_cases hfps : mode = "fps" <;> by_cases hchess : mode = "chess" <;>
      simp [hfps, hchess, checkFPSCompatibility, checkChessCompatibility,
        not_lt, mul_comm, and_comm, or_comm, Decidable.not_and_iff_or_not,
        imp_iff_not_or] <;>
      tauto
  · simp only [arePlayersCompatible, abs_sub_comm a.rating b.rating,
      max_comm (now - a.joinedAt) (now - b.joinedAt),
      checkFPSCompatibility_symm a b, checkChessCompatibility_symm a b]

/-- **C2.** `addToQueue` is not idempotent on (playerId, mode): enqueueing
a player who already has an entry in the mode leaves two entries whenever
the rebuilt `playerData` differs (here: a later `joinedAt`), because the
new JSON member does not supersede the old one.  Evaluated at the failing
input: the same player enqueued in `chess` at t=0 and again at t=5000. -/
theorem addToQueue_duplicate_entry :
    ∃ q1 q2 : List (Int × QEntry),
      addToQueue
          (some ⟨"alice", "alice", ⟨1000, 1000, 1000, 1000⟩, ⟨0, 0, 0, 0⟩, 0, 0⟩)
          [] "chess" {} "sock1" 0 = .ok q1 ∧
      addToQueue
          (some ⟨"alice", "alice", ⟨1000, 1000, 1000, 1000⟩, ⟨0, 0, 0, 0⟩, 0, 0⟩)
          q1 "chess" {} "sock1" 5000 = .ok q2 ∧
      queueCountFor q2 "alice" = 2 :=
  ⟨_, _, rfl, rfl, by decide⟩

/-- A finished two-player chess match, as stored after a first
`endGame(g1, "a", "resignation")` at t=100. -/
def c1Game : Game :=
  { id := "g1"
    players := [⟨"a", "alice", 1000, "s1"⟩, ⟨"b", "bob", 1200, "s2"⟩]
    gameMode := "chess"
    status := "finished"
    createdAt := 0
    startedAt := some 5
    endedAt := some 100
    result := some ⟨some "a", "resignation"⟩ }

/-- **C1.** A second `endGame` on a `finished` match is not a no-op: the
source never checks the current status, so the call rewrites `endedAt`
and, for a two-player chess match, issues the two rating updates again —
each player's rating is settled twice for the same game.  Evaluated at
the failing input `c1Game`. -/
theorem endGame_reentrancy_bug :
    endGame (some c1Game) (some "a") "resignation" 200 =
      (some { c1Game with endedAt := some 200 },
       [⟨"a", "chess", 1200, "win"⟩, ⟨"b", "chess", 1000, "loss"⟩]) ∧
    (endGame (some c1Game) (some "a") "resignation" 200).2 ≠ [] ∧
    (endGame (some c1Game) (some "a") "resignation" 200).1 ≠ some c1Game := by
  refine ⟨by decide, by decide, by decide⟩

/-- A finished two-player chess match used to exercise `startGame`. -/
def c6Game : Game :=
  { id := "g2"
    players := [⟨"a", "alice", 1000, "s1"⟩, ⟨"b", "bob", 1200, "s2"⟩]
    gameMode := "chess"
    status := "finished"
    createdAt := 0
    startedAt := some 5
    endedAt := some 100
    result := some ⟨none, "completed"⟩ }

/-- **C6 (counterexample).** `startGame` on a `finished` match is not a
no-op: the source never inspects the status, so the finished match is
rewritten to `active` with a fresh `startedAt` and `game_started` is
emitted again. -/
theorem startGame_finished_cex :
    startGame (some c6Game) 200 =
      (some { c6Game with status := "active", startedAt := some 200 }, true) ∧
    (startGame (some c6Game) 200).1 ≠ some c6Game := by
  refine ⟨by decide, by decide⟩

/-- **C6 (amended).** `startGame` sets `status = 'active'`,
`startedAt = now` and emits `game_started` for every existing match,
whatever its current status (so `active → active` and
`finished → active` rewrites are also produced); it is a no-op only when
the match does not exist. -/
theorem startGame_behavior (g : Game) (now : Int) :
    startGame (some g) now =
      (some { g with status := "active", startedAt := some now }, true) ∧
    startGame none now = (none, false) :=
  ⟨rfl, rfl⟩

/-- **C10.** For a two-player chess match, `endGame` with a non-null
`winnerId` matching neither participant falls through to the `else`
branch and settles both participants as a `draw`, exactly the rating
updates issued when `winnerId` is null. -/
theorem endGame_unknown_winner_draws (g : Game) (p1 p2 : GPlayer)
    (w reason : String) (now : Int)
    (hmode : g.gameMode = "chess") (hps : g.players = [p1, p2])
    (h1 : w ≠ p1.id) (h2 : w ≠ p2.id) :
    endGameCmds g (some w) =
      [⟨p1.id, g.gameMode, p2.rating, "draw"⟩,
       ⟨p2.id, g.gameMode, p1.rating, "draw"⟩] ∧
    (endGame (some g) (some w) reason now).2 =
      (endGame (some g) none reason now).2 := by
  constructor <;> simp [endGame, endGameCmds, hmode, hps, h1, h2]

/-- The `c10Game` match just before settlement. -/
def c10Game : Game :=
  { id := "g3"
    players := [⟨"a", "alice", 1000, "s1"⟩, ⟨"b", "bob", 1200, "s2"⟩]
    gameMode := "chess"
    status := "active"
    createdAt := 0
    startedAt := some 5 }

theorem endGame_unknown_winner_draws_witness :
    endGameCmds c10Game (some "c") =
      [⟨"a", "chess", 1200, "draw"⟩, ⟨"b", "chess", 1000, "draw"⟩] :=
  (endGame_unknown_winner_draws c10Game ⟨"a", "alice", 1000, "s1"⟩
    ⟨"b", "bob", 1200, "s2"⟩ "c" "completed" 7 rfl rfl
    (by decide) (by decide)).1

/-- **C7 (counterexample).** `createPlayer` performs no name validation:
the empty name (0 printable characters) still yields a fresh player
record with all ratings 1000 and a `leaderboard:global` insert — no
`InvalidInput` failure exists in the source. -/
theorem createPlayer_empty_name_cex :
    (createPlayer "" "fps" "p0" 0).player =
      ⟨"p0", "", ⟨1000, 1000, 1000, 1000⟩, ⟨0, 0, 0, 0⟩, 0, 0⟩ ∧
    (createPlayer "" "fps" "p0" 0).lbScore = some 1000 ∧
    "".length < 2 := by
  refine ⟨by decide, by decide, by decide⟩

/-- **C7 (amended).** `createPlayer` validates nothing: for every name it
returns a fresh player with all mode ratings 1000 and zeroed stats, and
inserts the player id into `leaderboard:global` with score
`ratings[primaryMode]` — `some 1000` for each of the four known modes. -/
theorem createPlayer_behavior (username gameMode playerId : String)
    (now : Int) :
    createPlayer username gameMode playerId now =
      ⟨⟨playerId, username, ⟨1000, 1000, 1000, 1000⟩, ⟨0, 0, 0, 0⟩, now, now⟩,
       "leaderboard:global",
       ratingFor ⟨1000, 1000, 1000, 1000⟩ gameMode, playerId⟩ ∧
    (gameMode = "fps" ∨ gameMode = "chess" ∨ gameMode = "moba" ∨
        gameMode = "rts" →
      (createPlayer username gameMode playerId now).lbScore = some 1000) := by
  refine ⟨rfl, ?_⟩
  rintro (h | h | h | h) <;> simp [createPlayer, ratingFor, h]

theorem createPlayer_behavior_witness :
    (createPlayer "alice" "chess" "p1" 7).lbScore = some 1000 :=
  (createPlayer_behavior "alice" "chess" "p1" 7).2 (Or.inr (Or.inl rfl))

lemma tenRpow_pos (x : ℝ) : 0 < (10 : ℝ) ^ x :=
  Real.rpow_pos_of_pos (by norm_num) x

lemma calculateExpectedScore_pos (p o : ℝ) : 0 < calculateExpectedScore p o := by
  unfold calculateExpectedScore
  have h := tenRpow_pos ((o - p) / 400)
  positivity

lemma calculateExpectedScore_lt_one (p o : ℝ) :
    calculateExpectedScore p o < 1 := by
  unfold calculateExpectedScore
  have h := tenRpow_pos ((o - p) / 400)
  rw [div_lt_one (by linarith)]
  linarith

/-- Expected scores of the two sides of a game sum to 1. -/
lemma calculateExpectedScore_add (p o : ℝ) :
    calculateExpectedScore p o + calculateExpectedScore o p = 1 := by
  unfold calculateExpectedScore
  have hx : (p - o) / 400 = -((o - p) / 400) := by ring
  rw [hx, Real.rpow_neg (by norm_num : (0 : ℝ) ≤ 10)]
  have htpos : 0 < (10 : ℝ) ^ ((o - p) / 400) := tenRpow_pos _
  have h1 : 1 + (10 : ℝ) ^ ((o - p) / 400) ≠ 0 := by linarith
  have h2 : 1 + ((10 : ℝ) ^ ((o - p) / 400))⁻¹ ≠ 0 := by positivity
  field_simp
  ring

lemma jsRound_hundred : jsRound (100 : ℝ) = 100 := by
  unfold jsRound
  rw [Int.floor_eq_iff]
  norm_num

/-- Rounding after clamping to the floor equals clamping after rounding:
`EloCalculator` computes `Math.round (Math.max 100 x)` while
`PlayerService` computes `Math.max 100 (Math.round x)`; they agree. -/
lemma jsRound_max_100 (x : ℝ) : jsRound (max 100 x) = max 100 (jsRound x) := by
  rcases le_total x 100 with h | h
  · have h2 : jsRound x ≤ 100 := by
      rw [← jsRound_hundred]
      exact Int.floor_le_floor (by linarith)
    rw [max_eq_left h, jsRound_hundred, max_eq_left h2]
  · have h2 : (100 : Int) ≤ jsRound x := by
      rw [← jsRound_hundred]
      exact Int.floor_le_floor (by linarith)
    rw [max_eq_right h, max_eq_right h2]

lemma jsRound_clamp_ge (x : ℝ) : 100 ≤ jsRound (max 100 x) := by
  rw [jsRound_max_100]
  exact le_max_left _ _

/-- **C4.** For numeric ratings (≥ 100 as the spec scopes them) and
`kFactor = 32`, `calculateNewRating` returns
`max 100 (round (player + k·(actual − expected)))` with
`expected = 1/(1 + 10^((opponent − player)/400))` and actual 1 / ½ / 0 for
win / draw / loss; every successful result — and the rating stored by
`updatePlayerRating` — is ≥ 100; an unknown outcome or a non-numeric
rating is rejected. -/
theorem calculateNewRating_correct (p o : ℝ) (result : String)
    (_hp : (100 : ℝ) ≤ p) (_ho : (100 : ℝ) ≤ o) :
    (result = "win" ∨ result = "loss" ∨ result = "draw" →
      calculateNewRating (some p) (some o) result 32 =
        .ok (max 100 (jsRound (p + 32 *
          (getActualScore result - calculateExpectedScore p o))))) ∧
    getActualScore "win" = 1 ∧ getActualScore "draw" = 1 / 2 ∧
    getActualScore "loss" = 0 ∧
    calculateExpectedScore p o = 1 / (1 + (10 : ℝ) ^ ((o - p) / 400)) ∧
    (∀ r : Int, calculateNewRating (some p) (some o) result 32 = .ok r →
      100 ≤ r) ∧
    100 ≤ updatedRating p o result ∧
    (¬(result = "win" ∨ result = "loss" ∨ result = "draw") →
      calculateNewRating (some p) (some o) result 32 =
        .error "Result must be win, loss, or draw") ∧
    calculateNewRating none (some o) result 32 =
      .error "Ratings must be numbers" ∧
    calculateNewRating (some p) none result 32 =
      .error "Ratings must be numbers" := by
  refine ⟨?_, rfl, rfl, rfl, rfl, ?_, le_max_left _ _, ?_, rfl, rfl⟩
  · intro h
    simp only [calculateNewRating, if_pos h, jsRound_max_100]
  · intro r hr
    by_cases h : result = "win" ∨ result = "loss" ∨ result = "draw"
    · simp only [calculateNewRating, if_pos h, Except.ok.injEq] at hr
      rw [← hr]
      exact jsRound_clamp_ge _
    · simp only [calculateNewRating, if_neg h] at hr
      cases hr
  · intro h
    simp only [calculateNewRating, if_neg h]

theorem calculateNewRating_correct_witness :
    (100 : ℝ) ≤ 1000 ∧
    calculateNewRating (some (1000 : ℝ)) (some (1000 : ℝ)) "win" 32 =
      .ok (max 100 (jsRound (1000 + 32 *
        (getActualScore "win" - calculateExpectedScore 1000 1000)))) :=
  ⟨by norm_num,
   (calculateNewRating_correct 1000 1000 "win" (by norm_num) (by norm_num)).1
     (Or.inl rfl)⟩

lemma ratingDelta_win_add_loss (a b : ℝ) :
    ratingDelta a b "win" + ratingDelta b a "loss" = 0 := by
  unfold ratingDelta
  have h := calculateExpectedScore_add a b
  have h1 : getActualScore "win" = 1 := rfl
  have h2 : getActualScore "loss" = 0 := rfl
  rw [h1, h2]
  linarith

lemma ratingDelta_win_abs (a b : ℝ) : |ratingDelta a b "win"| ≤ 32 := by
  unfold ratingDelta
  have h1 := calculateExpectedScore_pos a b
  have h2 := calculateExpectedScore_lt_one a b
  have h3 : getActualScore "win" = 1 := rfl
  rw [h3, abs_of_nonneg (by linarith)]
  linarith

lemma ratingDelta_loss_abs (a b : ℝ) : |ratingDelta a b "loss"| ≤ 32 := by
  unfold ratingDelta
  have h1 := calculateExpectedScore_pos a b
  have h2 := calculateExpectedScore_lt_one a b
  have h3 : getActualScore "loss" = 0 := rfl
  rw [h3, abs_of_nonpos (by linarith)]
  linarith

/-- **C8.** In a two-player rated chess settlement the winner is updated
with `win` against the loser's cached rating and the loser with `loss`
against the winner's; with stored ratings equal to the cached ones, the
unrounded, unclamped deltas `eloK·(actual − expected)` sum to 0 and each
has absolute value at most `eloK = 32`. -/
theorem elo_symmetry (g : Game) (p1 p2 : GPlayer)
    (hmode : g.gameMode = "chess") (hps : g.players = [p1, p2]) :
    endGameCmds g (some p1.id) =
      [⟨p1.id, g.gameMode, p2.rating, "win"⟩,
       ⟨p2.id, g.gameMode, p1.rating, "loss"⟩] ∧
    ratingDelta (p1.rating : ℝ) (p2.rating : ℝ) "win" +
      ratingDelta (p2.rating : ℝ) (p1.rating : ℝ) "loss" = 0 ∧
    |ratingDelta (p1.rating : ℝ) (p2.rating : ℝ) "win"| ≤ 32 ∧
    |ratingDelta (p2.rating : ℝ) (p1.rating : ℝ) "loss"| ≤ 32 := by
  refine ⟨?_, ratingDelta_win_add_loss _ _, ratingDelta_win_abs _ _,
    ratingDelta_loss_abs _ _⟩
  simp [endGameCmds, hmode, hps]

/-- The `elo_symmetry` match. -/
def c8Game : Game :=
  { id := "g4"
    players := [⟨"a", "alice", 1000, "s1"⟩, ⟨"b", "bob", 1200, "s2"⟩]
    gameMode := "chess"
    status := "active"
    createdAt := 0
    startedAt := some 5 }

theorem elo_symmetry_witness :
    endGameCmds c8Game (some "a") =
      [⟨"a", "chess", 1200, "win"⟩, ⟨"b", "chess", 1000, "loss"⟩] ∧
    ratingDelta ((1000 : Int) : ℝ) ((1200 : Int) : ℝ) "win" +
      ratingDelta ((1200 : Int) : ℝ) ((1000 : Int) : ℝ) "loss" = 0 :=
  ⟨(elo_symmetry c8Game ⟨"a", "alice", 1000, "s1"⟩ ⟨"b", "bob", 1200, "s2"⟩
      rfl rfl).1,
   (elo_symmetry c8Game ⟨"a", "alice", 1000, "s1"⟩ ⟨"b", "bob", 1200, "s2"⟩
      rfl rfl).2.1⟩

lemma lbRows_mem {l : List (String × Int)} {gp : String → Option Player}
    {i : Nat} {row : LBRow} (h : row ∈ lbRows l gp i) :
    (row.playerId, row.rating) ∈ l := by
  induction l generalizing i with
  | nil => cases h
  | cons hd tl ih =>
    rcases hd with ⟨pid, sc⟩
    simp only [lbRows] at h
    cases hgp : gp pid with
    | some p =>
      rw [hgp] at h
      rcases List.mem_cons.mp h with h1 | h1
      · subst h1
        exact List.mem_cons_self _ _
      · exact List.mem_cons_of_mem _ (ih h1)
    | none =>
      rw [hgp] at h
      exact List.mem_cons_of_mem _ (ih h)

lemma lbRows_pairwise {l : List (String × Int)} {gp : String → Option Player}
    {i : Nat} (h : l.Pairwise scoreGe) :
    (lbRows l gp i).Pairwise (fun x y => y.rating ≤ x.rating) := by
  induction l generalizing i with
  | nil => simp [lbRows]
  | cons hd tl ih =>
    rcases hd with ⟨pid, sc⟩
    rcases List.pairwise_cons.mp h with ⟨hhd, htl⟩
    simp only [lbRows]
    cases hgp : gp pid with
    | none => exact ih htl
    | some p =>
      refine List.pairwise_cons.mpr ⟨?_, ih htl⟩
      intro y hy
      exact hhd _ (lbRows_mem hy)

lemma lbRows_length_le {l : List (String × Int)} {gp : String → Option Player}
    {i : Nat} : (lbRows l gp i).length ≤ l.length := by
  induction l generalizing i with
  | nil => simp [lbRows]
  | cons hd tl ih =>
    rcases hd with ⟨pid, sc⟩
    simp only [lbRows]
    cases gp pid with
    | some p => simpa using ih
    | none => exact le_trans ih (Nat.le_succ _)

lemma lbRows_ranks {l : List (String × Int)} {gp : String → Option Player}
    (hall : ∀ id, (gp id).isSome) (i : Nat) :
    (lbRows l gp i).map LBRow.rank = List.range' (i + 1) l.length := by
  induction l generalizing i with
  | nil => rfl
  | cons hd tl ih =>
    rcases hd with ⟨pid, sc⟩
    obtain ⟨p, hp⟩ := Option.isSome_iff_exists.mp (hall pid)
    simp only [lbRows, hp, List.map_cons, List.length_cons, List.range'_succ]
    exact congrArg _ (ih _)

/-- **C9 (counterexample).** Ranks are not dense: two players with equal
rating receive ranks 1 and 2 (the source uses the scan index `i + 1`),
and a `limit` of 0 returns every record (the Redis stop index `0 - 1`
denotes the end of the set) rather than at most 0. -/
theorem getLeaderboard_rank_cex :
    getLeaderboard [("a", 1000), ("b", 1000)]
        (fun id => some ⟨id, id, ⟨1000, 1000, 1000, 1000⟩, ⟨3, 1, 1, 1⟩, 0, 0⟩)
        10 =
      [⟨1, "a", "a", 1000, 3⟩, ⟨2, "b", "b", 1000, 3⟩] ∧
    (getLeaderboard [("a", 1000), ("b", 1000)]
        (fun id => some ⟨id, id, ⟨1000, 1000, 1000, 1000⟩, ⟨3, 1, 1, 1⟩, 0, 0⟩)
        0).length = 2 := by
  refine ⟨by decide, by decide⟩

/-- **C9 (amended).** For `limit ≥ 1`, `getLeaderboard` returns at most
`limit` rows, ordered nonincreasing by rating; the `rank` field is the
1-based position in the descending scan (ordinal, so tied ratings get
distinct consecutive ranks), and when every scanned id resolves to a
player record the ranks are exactly `1, 2, …, min limit n`. -/
theorem getLeaderboard_props (lb : List (String × Int))
    (gp : String → Option Player) (limit : Nat) (hl : 1 ≤ limit) :
    (getLeaderboard lb gp limit).length ≤ limit ∧
    (getLeaderboard lb gp limit).Pairwise (fun x y => y.rating ≤ x.rating) ∧
    ((∀ id, (gp id).isSome) →
      (getLeaderboard lb gp limit).map LBRow.rank =
        List.range' 1 (min limit lb.length)) := by
  have hlim : ¬limit = 0 := by omega
  have hsorted : (List.insertionSort scoreGe lb).Pairwise scoreGe :=
    List.sorted_insertionSort scoreGe lb
  refine ⟨?_, ?_, ?_⟩
  · calc (getLeaderboard lb gp limit).length
        ≤ (zRevRangeWithScores lb limit).length := lbRows_length_le
      _ ≤ limit := by
          simp only [zRevRangeWithScores, if_neg hlim, List.length_take]
          exact min_le_left _ _
  · exact lbRows_pairwise
      (List.Pairwise.sublist
        (by simp only [zRevRangeWithScores, if_neg hlim]
            exact List.take_sublist _ _)
        hsorted)
  · intro hall
    have hlen : (zRevRangeWithScores lb limit).length = min limit lb.length := by
      simp only [zRevRangeWithScores, if_neg hlim, List.length_take,
        List.length_insertionSort]
    rw [getLeaderboard, lbRows_ranks hall, hlen]

theorem getLeaderboard_props_witness :
    (getLeaderboard [("a", 1200), ("b", 1000)]
        (fun id => some ⟨id, id, ⟨1000, 1000, 1000, 1000⟩, ⟨3, 1, 1, 1⟩, 0, 0⟩)
        5).length ≤ 5 :=
  (getLeaderboard_props [("a", 1200), ("b", 1000)]
    (fun id => some ⟨id, id, ⟨1000, 1000, 1000, 1000⟩, ⟨3, 1, 1, 1⟩, 0, 0⟩)
    5 (by norm_num)).1

lemma removeGroup_sublist (g q : List QEntry) (c : Nat) (f : Option Nat) :
    List.Sublist (removeGroup g q c f).1 q := by
  induction g generalizing q c with
  | nil => exact List.Sublist.refl q
  | cons p ps ih =>
    simp only [removeGroup]
    split
    · exact List.Sublist.refl q
    · exact (ih _ _).trans (List.erase_sublist _ _)

lemma runGroups_queue_sublist (gs : List (List QEntry)) (q : List QEntry)
    (em : List (List QEntry)) (c : Nat) (f : Option Nat) :
    List.Sublist (runGroups gs q em c f).queue q := by
  induction gs generalizing q em c with
  | nil => exact List.Sublist.refl q
  | cons g rest ih =>
    simp only [runGroups]
    split
    · exact List.Sublist.refl q
    · split
      · exact removeGroup_sublist _ _ _ _
      · exact (ih _ _ _).trans (removeGroup_sublist _ _ _ _)

lemma removeGroup_mem_of_removed {g q : List QEntry} {c : Nat}
    {f : Option Nat} {p : QEntry} (hq : p ∈ q)
    (hout : p ∉ (removeGroup g q c f).1) : p ∈ g := by
  induction g generalizing q c with
  | nil => exact absurd hq hout
  | cons x xs ih =>
    simp only [removeGroup] at hout
    by_cases h : f = some c
    · rw [if_pos h] at hout
      exact absurd hq hout
    · rw [if_neg h] at hout
      by_cases hpx : p = x
      · exact hpx ▸ List.mem_cons_self _ _
      · exact List.mem_cons_of_mem _
          (ih ((List.mem_erase_of_ne hpx).mpr hq) hout)

lemma runGroups_emitted_mono {gs : List (List QEntry)} {q : List QEntry}
    {em : List (List QEntry)} {c : Nat} {f : Option Nat} {x : List QEntry}
    (hx : x ∈ em) : x ∈ (runGroups gs q em c f).emitted := by
  induction gs generalizing q em c with
  | nil => exact hx
  | cons g rest ih =>
    simp only [runGroups]
    split
    · exact hx
    · split
      · exact List.mem_append_left _ hx
      · exact ih (List.mem_append_left _ hx)

/-- Any entry missing from the post-tick queue belongs to a group whose
`match_found` was emitted: removals only happen after a successful
`createMatch`. -/
lemma runGroups_removed_emitted {gs : List (List QEntry)} {q : List QEntry}
    {em : List (List QEntry)} {c : Nat} {f : Option Nat} {p : QEntry}
    (hq : p ∈ q) (hout : p ∉ (runGroups gs q em c f).queue) :
    ∃ g ∈ (runGroups gs q em c f).emitted, p ∈ g := by
  induction gs generalizing q em c with
  | nil => exact absurd hq hout
  | cons g rest ih =>
    simp only [runGroups] at hout ⊢
    by_cases h : f = some c
    · rw [if_pos h] at hout ⊢
      exact absurd hq hout
    · rw [if_neg h] at hout ⊢
      by_cases h2 : (removeGroup g q (c + 1) f).2.2 = true
      · rw [if_pos h2] at hout ⊢
        exact ⟨g, List.mem_append_right _ (List.mem_singleton.mpr rfl),
          removeGroup_mem_of_removed hq hout⟩
      · rw [if_neg h2] at hout ⊢
        by_cases hin : p ∈ (removeGroup g q (c + 1) f).1
        · exact ih hin hout
        · exact ⟨g,
            runGroups_emitted_mono
              (List.mem_append_right _ (List.mem_singleton.mpr rfl)),
            removeGroup_mem_of_removed hq hin⟩

lemma removeGroup_none_ok (g q : List QEntry) (c : Nat) :
    (removeGroup g q c none).2.2 = false := by
  induction g generalizing q c with
  | nil => rfl
  | cons p ps ih =>
    simp only [removeGroup]
    rw [if_neg (by simp)]
    exact ih _ _

lemma runGroups_none_ok (gs : List (List QEntry)) (q : List QEntry)
    (em : List (List QEntry)) (c : Nat) :
    (runGroups gs q em c none).errored = false := by
  induction gs generalizing q em c with
  | nil => rfl
  | cons g rest ih =>
    simp only [runGroups]
    rw [if_neg (by simp), if_neg (by simp [removeGroup_none_ok])]
    exact ih _ _ _

/-- In a failure-free removal loop every group member is erased for good
(the store holds each member at most once). -/
lemma removeGroup_none_not_mem {g q : List QEntry} {c : Nat} {p : QEntry}
    (hnd : q.Nodup) (hp : p ∈ g) : p ∉ (removeGroup g q c none).1 := by
  induction g generalizing q c with
  | nil => cases hp
  | cons x xs ih =>
    simp only [removeGroup]
    rw [if_neg (by simp)]
    rcases List.mem_cons.mp hp with rfl | hmem
    · intro hcon
      have hmem2 : p ∈ q.erase p :=
        (removeGroup_sublist xs (q.erase p) (c + 1) none).subset hcon
      exact ((List.Nodup.mem_erase_iff hnd).mp hmem2).1 rfl
    · exact ih (hnd.erase x) hmem

lemma runGroups_none_removes {gs : List (List QEntry)} {q : List QEntry}
    {em : List (List QEntry)} {c : Nat} (hnd : q.Nodup)
    (hem : ∀ g ∈ em, ∀ p ∈ g, p ∉ q) :
    ∀ g ∈ (runGroups gs q em c none).emitted, ∀ p ∈ g,
      p ∉ (runGroups gs q em c none).queue := by
  induction gs generalizing q em c with
  | nil => exact hem
  | cons g rest ih =>
    simp only [runGroups]
    rw [if_neg (by simp), if_neg (by simp [removeGroup_none_ok])]
    apply ih
    · exact List.Nodup.sublist (removeGroup_sublist g q (c + 1) none) hnd
    · intro g2 hg2 p hp
      rcases List.mem_append.mp hg2 with h | h
      · intro hcon
        exact hem g2 h p hp ((removeGroup_sublist g q (c + 1) none).subset hcon)
      · rw [List.mem_singleton] at h
        subst h
        exact removeGroup_none_not_mem hnd hp

/-- **C3 (amended).** Assuming the sorted set holds each member once, a
tick with no store failure throws nothing and removes every member of
every group for which `match_found` was emitted; under any failure
schedule, an entry disappears from the queue only if it belongs to an
emitted group — no uncommitted group is ever removed, although a throw
after an emission can leave that committed group's members partially
enqueued and earlier committed removals in place. -/
theorem processMatchmaking_atomicity (q : List QEntry) (mode : String)
    (now : Int) (hnd : q.Nodup) :
    (processMatchmaking q mode now none).errored = false ∧
    (∀ g ∈ (processMatchmaking q mode now none).emitted,
      ∀ p ∈ g, p ∉ (processMatchmaking q mode now none).queue) ∧
    (∀ failAt : Option Nat, ∀ p ∈ q,
      p ∉ (processMatchmaking q mode now failAt).queue →
        ∃ g ∈ (processMatchmaking q mode now failAt).emitted, p ∈ g) := by
  unfold processMatchmaking
  by_cases hlen : q.length < 2
  · simp only [if_pos hlen]
    exact ⟨by trivial, fun g hg => absurd hg (List.not_mem_nil g),
      fun f p hp hout => absurd hp hout⟩
  · simp only [if_neg hlen]
    refine ⟨runGroups_none_ok _ _ _ _, runGroups_none_removes hnd ?_, ?_⟩
    · intro g hg
      exact absurd hg (List.not_mem_nil g)
    · intro f p hp hout
      exact runGroups_removed_emitted hp hout

/-- Four mutually compatible chess entries enqueued at t = 0, 1, 2, 3. -/
def qA : QEntry :=
  { id := "a", username := "a", rating := 1000, preferences := some {},
    socketId := "s1", joinedAt := 0, searchExpansion := 0 }

def qB : QEntry :=
  { id := "b", username := "b", rating := 1000, preferences := some {},
    socketId := "s2", joinedAt := 1, searchExpansion := 0 }

def qC : QEntry :=
  { id := "c", username := "c", rating := 1000, preferences := some {},
    socketId := "s3", joinedAt := 2, searchExpansion := 0 }

def qD : QEntry :=
  { id := "d", username := "d", rating := 1000, preferences := some {},
    socketId := "s4", joinedAt := 3, searchExpansion := 0 }

/-- **C3 (counterexample).** `match_found` is emitted before the group's
members are removed, one `zRem` at a time, with no rollback: if the
second `zRem` of the first committed group throws (operation 2), the tick
ends with `match_found` emitted for `[qA, qB]` while `qB` is still in the
queue — and the queue differs from its pre-tick contents. -/
theorem processMatchmaking_failure_cex :
    processMatchmaking [qA, qB, qC, qD] "chess" 2000 (some 2) =
      ⟨[qB, qC, qD], [[qA, qB]], true⟩ ∧
    [qA, qB] ∈ (processMatchmaking [qA, qB, qC, qD] "chess" 2000 (some 2)).emitted ∧
    qB ∈ (processMatchmaking [qA, qB, qC, qD] "chess" 2000 (some 2)).queue ∧
    (processMatchmaking [qA, qB, qC, qD] "chess" 2000 (some 2)).queue ≠
      [qA, qB, qC, qD] := by
  refine ⟨by decide, by decide, by decide, by decide⟩

theorem processMatchmaking_atomicity_witness :
    ([qA, qB].Nodup) ∧
    (processMatchmaking [qA, qB] "chess" 2000 none).errored = false :=
  ⟨by decide, (processMatchmaking_atomicity [qA, qB] "chess" 2000 (by decide)).1⟩

end MmoEngine
